import Mathlib

/-!
Verification of the PyHive board/grid engine (src/run.py).

The development shallowly embeds the core of `run.py`:
  * `Hexagon` (grid cell with an `adjoins` direction table),
  * `Chip` (piece with `stacked_chip` / `covered_chip` links),
  * `ChipPool` (ordered groups of chips with a wrapping cursor),
  * the `PyHiveGame` engine operations `unstack_chip`, `top_of_stack`,
    `set_grid_pos`, `expand_grid`, `stack_on_chip`, `get_new_chip`,
    `release_selected_chip`, and the update step of `run`.

Python objects are modelled by an explicit store: every `Hexagon` object ever
created is registered in `hexes` under a fresh numeric id (`nextHex` is the
allocation counter), so object identity (including the possibility of two
distinct `Hexagon` objects for one axial coordinate) is captured faithfully.
The twelve `Chip` objects (`add_chip` = id 0, the eleven pool chips ids 1-11)
live in an association list keyed by chip id; reading an id that has never
been written yields the default chip, which coincides with a freshly
constructed `Chip()` (all links `None`).

Pixel-level data (screen centers, radii, colors, images, the mouse-hit
geometry) is out of scope per the specification and is dropped: commands are
the engine-level commands the input layer derives from raw events
(click the add-chip affordance, click a chip, click a materialized cell).
Python exceptions abort the program, so an operation that raises produces no
successor state; operations return `Option State` with `none` for a raise.
-/

/-- Association-list lookup (first binding wins), modelling Python dict read. -/
def aget {K V : Type} [DecidableEq K] : List (K × V) → K → Option V
  | [], _ => none
  | (k, v) :: rest, k' => if k' = k then some v else aget rest k'

/-- Association-list write (replace the existing binding, else append),
modelling Python dict assignment `d[k] = v`. -/
def aset {K V : Type} [DecidableEq K] : List (K × V) → K → V → List (K × V)
  | [], k, v => [(k, v)]
  | (k0, v0) :: rest, k, v =>
    if k = k0 then (k0, v) :: rest else (k0, v0) :: aset rest k v

/-! ## The chip pool (`ChipPool`, run.py lines 176-212)

`chip_set` is a list of groups of chips (chips are identified by the numeric
id of the `Chip` object); `_next` is the cursor. -/

structure Pool where
  chipSet : List (List Nat)
  next : Nat
deriving DecidableEq, Repr

/-- `ChipPool.__init__`: one Bee (id 1), two Spiders (2,3), two Beetles (4,5),
three Grasshoppers (6,7,8), three Ants (9,10,11); cursor 0. -/
def poolInit : Pool :=
  { chipSet := [[1], [2, 3], [4, 5], [6, 7, 8], [9, 10, 11]], next := 0 }

/-- `ChipPool.peek` (run.py 193-196): `None` when `chip_set` is empty or the
cursor group is empty, else the head of the cursor group. -/
def poolPeek (p : Pool) : Option Nat :=
  if p.chipSet = [] then none
  else
    match p.chipSet.getD p.next [] with
    | [] => none
    | x :: _ => some x

/-- `ChipPool.pop` (run.py 198-207): remove the head of the cursor group;
if the group becomes empty delete it and re-clamp the cursor
(`self._next = self._next % len(self.chip_set) if self.chip_set else 0`). -/
def poolPop (p : Pool) : Pool × Option Nat :=
  if p.chipSet = [] then (p, none)
  else
    match p.chipSet.getD p.next [] with
    | [] => (p, none)
    | x :: rest =>
      if rest = [] then
        let cs := p.chipSet.eraseIdx p.next
        ({ chipSet := cs, next := if cs = [] then 0 else p.next % cs.length }, some x)
      else
        ({ p with chipSet := p.chipSet.set p.next rest }, some x)

/-- `ChipPool.next` (run.py 209-212): advance the cursor
(`self._next %= len(self.chip_set) if self.chip_set else 1`) and peek. -/
def poolAdvance (p : Pool) : Pool × Option Nat :=
  let n := (p.next + 1) % (if p.chipSet = [] then 1 else p.chipSet.length)
  let p1 : Pool := { p with next := n }
  (p1, poolPeek p1)

/-- Perform `n` consecutive `pop` calls, collecting the results in order. -/
def poolPopMany : Pool → Nat → Pool × List (Option Nat)
  | p, 0 => (p, [])
  | p, n + 1 =>
    let (p1, r) := poolPop p
    let (p2, rs) := poolPopMany p1 n
    (p2, r :: rs)

/-! ## Hexagons, chips and the game state -/

/-- `Hexagon.adjoin_directions` (run.py line 32). -/
def adjoinDirections : List (Int × Int) :=
  [(0, -1), (1, -1), (1, 0), (0, 1), (-1, 1), (-1, 0)]

/-- `Hexagon.adjoin_loop` (run.py line 35): direction from one ring neighbour
to the next. -/
def adjoinLoop : List (Int × Int) :=
  [(1, 0), (0, 1), (-1, 1), (-1, 0), (0, -1), (1, -1)]

/-- A `Hexagon` object: axial coordinates (`None` for the GUI and selection
hexagons) and the `adjoins` table mapping each direction key to another
hexagon object (by id) or `None`. Pixel data (`center`, `radius`, `color`,
`line`) is dropped as out of scope. -/
structure Hexagon where
  col : Option Int
  row : Option Int
  adjoins : List ((Int × Int) × Option Nat)
deriving DecidableEq, Repr

/-- `Hexagon.init_adjoins` (run.py 46-50): every direction key maps to `None`. -/
def initAdjoins : List ((Int × Int) × Option Nat) :=
  adjoinDirections.map (fun k => (k, none))

/-- Read `hexagon.adjoins[key]`; a missing key reads as `None`
(the table always holds exactly the six direction keys). -/
def adjGet (h : Hexagon) (k : Int × Int) : Option Nat :=
  (aget h.adjoins k).join

/-- Write `hexagon.adjoins[key] = v`. -/
def adjSet (h : Hexagon) (k : Int × Int) (v : Option Nat) : Hexagon :=
  { h with adjoins := aset h.adjoins k v }

/-- A `Chip` object: `stacked_chip` (the chip sitting on top of this one),
`covered_chip` (the chip this one covers, i.e. sits on top of),
`hexagon` (the hexagon object the chip occupies) and `selection_hexagon`
(the badge hexagon owned by the chip), all by id.  A default chip equals a
freshly constructed `Chip()` (run.py 75-82): every reference `None`. -/
structure Chip where
  stacked : Option Nat := none
  covered : Option Nat := none
  hexagon : Option Nat := none
  selHex : Option Nat := none
deriving DecidableEq, Repr

instance : Inhabited Chip := ⟨{}⟩

/-- The state of `PyHiveGame`: the store of all `Hexagon` objects ever
allocated (`hexes`, keyed by allocation id, `nextHex` the counter), the grid
dictionary `self.hexagons` mapping axial coordinates to hexagon ids, the
store of the twelve `Chip` objects, the played-chip list `self.chips`, the
pool and the current selection. -/
structure State where
  hexes : List (Nat × Hexagon)
  nextHex : Nat
  hexDict : List ((Int × Int) × Nat)
  chipStore : List (Nat × Chip)
  chips : List Nat
  pool : Pool
  selected : Option Nat
deriving DecidableEq, Repr

/-- Read a chip object from the store (an id never written reads as a freshly
constructed chip). -/
def getChip (s : State) (c : Nat) : Chip :=
  (aget s.chipStore c).getD {}

/-- Mutate one chip object. -/
def setChip (s : State) (c : Nat) (f : Chip → Chip) : State :=
  { s with chipStore := aset s.chipStore c (f (getChip s c)) }

/-- Read a hexagon object from the store. -/
def hexGet (s : State) (i : Nat) : Option Hexagon :=
  aget s.hexes i

/-- Mutate one hexagon object. -/
def modifyHex (s : State) (i : Nat) (f : Hexagon → Hexagon) : State :=
  match aget s.hexes i with
  | some h => { s with hexes := aset s.hexes i (f h) }
  | none => s

/-- Read `adjoins[key]` of the hexagon object with id `i`. -/
def hexAdj (s : State) (i : Nat) (k : Int × Int) : Option Nat :=
  match hexGet s i with
  | some h => adjGet h k
  | none => none

/-- Allocate a new hexagon object, returning its id. -/
def allocHex (s : State) (h : Hexagon) : State × Nat :=
  ({ s with hexes := s.hexes ++ [(s.nextHex, h)], nextHex := s.nextHex + 1 }, s.nextHex)

/-! ## Chip operations -/

/-- `Chip.unstack_chip` (run.py 101-110).  Returns the state after the call
together with `true` when the call raised `ValueError` (run.py 104, unstacking a covered chip); the raise happens before any mutation, so the raised state is
the input state.  On success: disassociate from the covered chip (clearing
its `stacked_chip` and the `covered_chip` of this chip), then clear
`stacked_chip` and `selection_hexagon`. -/
def unstackChipR (s : State) (c : Nat) : State × Bool :=
  if (getChip s c).stacked.isSome then (s, true)
  else
    let s1 :=
      match (getChip s c).covered with
      | some d =>
        setChip (setChip s d (fun x => { x with stacked := none })) c
          (fun x => { x with covered := none })
      | none => s
    let s2 := setChip s1 c (fun x => { x with stacked := none })
    let s3 := setChip s2 c (fun x => { x with selHex := none })
    (s3, false)

/-- `Chip.top_of_stack` (run.py 112-116), translated with explicit fuel:
follow `stacked_chip` upward; `none` when the fuel runs out before the top is
reached (the Python recursion would then still be running; reachable states
never need more fuel than the number of chips). -/
def topChain (s : State) : Nat → Nat → Option Nat
  | 0, c =>
    match (getChip s c).stacked with
    | none => some c
    | some _ => none
  | n + 1, c =>
    match (getChip s c).stacked with
    | none => some c
    | some d => topChain s n d

/-- Total variant of `top_of_stack` used inside the engine commands: when the
fuel runs out it returns the chip reached so far (never happens in reachable
states, where `topChain` with fuel 12 always succeeds). -/
def topOfStack (s : State) : Nat → Nat → Nat
  | 0, c => c
  | n + 1, c =>
    match (getChip s c).stacked with
    | none => c
    | some d => topOfStack s n d

/-! ## Grid expansion (`PyHiveGame.expand_grid`, run.py 281-310) -/

/-- One iteration of the first loop of `expand_grid`: for direction `key`, if
the `adjoins[key]` of the center is unset, create a new `Hexagon` at
`(col, row) + key`, register it in the grid dictionary (overwriting whatever
id that coordinate held), and link it to the center both ways. -/
def expandStep1 (hid : Nat) (s : State) (key : Int × Int) : State :=
  match hexGet s hid with
  | none => s
  | some h =>
    if adjGet h key = none then
      match h.col, h.row with
      | some c, some r =>
        let coords : Int × Int := (c + key.1, r + key.2)
        let newHex : Hexagon := { col := some coords.1, row := some coords.2, adjoins := initAdjoins }
        let (s1, nid) := allocHex s newHex
        let s2 := { s1 with hexDict := aset s1.hexDict coords nid }
        let s3 := modifyHex s2 hid (fun hh => adjSet hh key (some nid))
        modifyHex s3 nid (fun hh => adjSet hh (-key.1, -key.2) (some hid))
      | _, _ => s
    else s

/-- One iteration of the second loop of `expand_grid`: take the ring
neighbours at direction indices `i` and `i+1 mod 6` and link them to each
other using the `adjoin_loop` key and its inverse.  In Python both adjoins
are necessarily set after the first loop; the impossible unset case is a
no-op here. -/
def expandStep2 (hid : Nat) (s : State) (i : Nat) : State :=
  match hexGet s hid with
  | none => s
  | some h =>
    let k1 := adjoinDirections.getD i (0, 0)
    let k2 := adjoinDirections.getD ((i + 1) % 6) (0, 0)
    match adjGet h k1, adjGet h k2 with
    | some f, some sec =>
      let cw := adjoinLoop.getD i (0, 0)
      let acw : Int × Int := (-cw.1, -cw.2)
      let s1 := modifyHex s f (fun hh => adjSet hh cw (some sec))
      modifyHex s1 sec (fun hh => adjSet hh acw (some f))
    | _, _ => s

/-- `PyHiveGame.expand_grid` (run.py 281-310): ensure the six adjoining
spaces of the hexagon object `hid` exist and are linked to it, then link the
ring of neighbours to each other. -/
def expandGrid (s : State) (hid : Nat) : State :=
  let s1 := adjoinDirections.foldl (expandStep1 hid) s
  (List.range 6).foldl (expandStep2 hid) s1

/-! ## Placement (`PyHiveGame.set_grid_pos`, run.py 269-279) -/

/-- The placement part of `PyHiveGame.set_grid_pos` (run.py 273-276): set the
chip field `hexagon`, then recreate its `selection_hexagon` (the preceding
unstack cleared it, so the `if not chip.selection_hexagon` test always
fires and a fresh `Hexagon` object with no grid coordinates is allocated). -/
def placeChip (s : State) (c : Nat) (hid : Nat) : State :=
  let s2 := setChip s c (fun ch => { ch with hexagon := some hid })
  let (s3, nid) := allocHex s2 { col := none, row := none, adjoins := initAdjoins }
  setChip s3 c (fun ch => { ch with selHex := some nid })

/-- `PyHiveGame.set_grid_pos` (run.py 269-279) for a non-`None` chip:
unstack the chip (propagating the `ValueError` as `none`), then place it
(`placeChip`), and expand the grid when the target hexagon has grid
coordinates.  With a `None` target hexagon Python crashes reading
`hexagon.center` when recreating the selection hexagon, hence `none`. -/
def setGridPos (s : State) (c : Nat) (oh : Option Nat) : Option State :=
  let u := unstackChipR s c
  if u.2 then none
  else
    match oh with
    | none => none
    | some hid =>
      let s4 := placeChip u.1 c hid
      match hexGet s4 hid with
      | some h => if h.col.isSome && h.row.isSome then some (expandGrid s4 hid) else some s4
      | none => some s4

/-- `PyHiveGame.stack_on_chip` (run.py 312-318): nothing at all happens when
the two chips are the same object; otherwise place the stacked chip on the
selection hexagon of the covered chip, then set the mutual links. -/
def stackOnChip (s : State) (c d : Nat) : Option State :=
  if c ≠ d then
    match setGridPos s c (getChip s d).selHex with
    | none => none
    | some s1 =>
      let s2 := setChip s1 d (fun x => { x with stacked := some c })
      some (setChip s2 c (fun x => { x with covered := some d }))
  else some s

/-! ## Pool interaction (`get_new_chip` / `release_selected_chip`,
run.py 247-263) -/

/-- `PyHiveGame.get_new_chip` (run.py 247-258): when the currently selected
chip is the pool head, advance the pool cursor and take the new peek,
otherwise just peek; with no chip available return (the advanced cursor
persists); otherwise place the chip on the add-chip hexagon, append it to
`self.chips` and select it. -/
def getNewChip (s : State) : Option State :=
  let adv : State × Option Nat :=
    if s.selected = poolPeek s.pool then
      let (p1, r) := poolAdvance s.pool
      ({ s with pool := p1 }, r)
    else (s, poolPeek s.pool)
  match adv.2 with
  | none => some adv.1
  | some n =>
    match setGridPos adv.1 n (getChip adv.1 0).hexagon with
    | none => none
    | some s2 => some { s2 with chips := s2.chips ++ [n], selected := some n }

/-- `PyHiveGame.release_selected_chip` (run.py 260-263): pop the pool when
the selected chip is the pool head, then clear the selection. -/
def releaseSelectedChip (s : State) : State :=
  let s1 :=
    if s.selected = poolPeek s.pool then { s with pool := (poolPop s.pool).1 }
    else s
  { s1 with selected := none }

/-! ## The engine commands (update section of `PyHiveGame.run`,
run.py 437-455)

The input layer translates raw mouse events into three commands: clicking
the add-chip affordance, clicking a chip on the board (`clicked_chip`
resolves it to the top of its stack), and clicking a grid coordinate.  The
mouse-hit geometry itself is the concern of the excluded collaborator; a chip can
be clicked only when it has a hexagon (`Chip.is_mouse_on`, run.py 95-99),
and a grid click only acts on a materialized coordinate. -/

inductive Cmd where
  | addChip : Cmd
  | clickChip : Nat → Cmd
  | clickCell : Int × Int → Cmd
deriving DecidableEq, Repr

/-- Apply one command, `none` when the command does not fire (guards fail) or
the Python code would raise. -/
def applyCmd (cmd : Cmd) (s : State) : Option State :=
  match cmd with
  | .addChip => getNewChip s
  | .clickChip c =>
    if c ∈ s.chips ∧ (getChip s c).hexagon.isSome then
      let t := topOfStack s 12 c
      match s.selected with
      | some h =>
        match stackOnChip s h t with
        | none => none
        | some s1 => some (releaseSelectedChip s1)
      | none => some { s with selected := some (topOfStack s 12 c) }
    else none
  | .clickCell co =>
    match s.selected, aget s.hexDict co with
    | some h, some hid =>
      match setGridPos s h (some hid) with
      | none => none
      | some s1 => some (releaseSelectedChip s1)
    | _, _ => none

/-- Apply a list of commands in order. -/
def applyTrace : List Cmd → State → Option State
  | [], s => some s
  | cmd :: rest, s =>
    match applyCmd cmd s with
    | none => none
    | some s1 => applyTrace rest s1

/-! ## The initial state (`PyHiveGame.__init__`, run.py 217-267) -/

/-- `init_hexagons` (run.py 234-238): the grid starts with the single origin
cell `(0,0)`, allocated as hexagon object 0. -/
def initHexState : State :=
  { hexes := [(0, { col := some 0, row := some 0, adjoins := initAdjoins })]
    nextHex := 1
    hexDict := [((0, 0), 0)]
    chipStore := []
    chips := []
    pool := { chipSet := [], next := 0 }
    selected := none }

/-- `init_gui` (run.py 265-267): allocate the GUI hexagon (no grid
coordinates) and place the add-chip (chip 0) on it via `set_grid_pos`. -/
def initGui (s : State) : Option State :=
  let (s1, gid) := allocHex s { col := none, row := none, adjoins := initAdjoins }
  setGridPos s1 0 (some gid)

/-- `init_chips` (run.py 240-245): fresh chip list, fresh pool, no selection,
then draw the first chip into the hand of the player via `get_new_chip`. -/
def initChips (s : State) : Option State :=
  getNewChip { s with chips := [], pool := poolInit, selected := none }

/-- The `PyHiveGame.__init__` sequence (the pixel-only steps are dropped). -/
def initStateOpt : Option State :=
  (initGui initHexState).bind initChips

/-- The initial state of the engine (the init sequence succeeds, see
`initStateOpt_eq`). -/
def initState : State :=
  initStateOpt.getD initHexState

/-- A state is reachable when a sequence of engine commands produces it from
the initial state. -/
def Reach (s : State) : Prop :=
  Relation.ReflTransGen (fun a b => ∃ cmd, applyCmd cmd a = some b) initState s

/-- There is a rank strictly decreasing along `stacked_chip` (acyclicity). -/
def Ranked (s : State) : Prop :=
  ∃ rank : Nat → Nat, ∀ c d, (getChip s c).stacked = some d → rank d < rank c

/-- Every `stacked_chip` link connects two of the twelve chip objects. -/
def EdgesBelow (s : State) : Prop :=
  ∀ c d, (getChip s c).stacked = some d → c < 12 ∧ d < 12

/-- The cover links are mutual inverses (the invariant of claim C1). -/
def Mutual (s : State) : Prop :=
  ∀ c d : Nat, ((getChip s c).covered = some d → (getChip s d).stacked = some c) ∧
    ((getChip s c).stacked = some d → (getChip s d).covered = some c)

/-- All chip ids the engine handles denote one of the twelve chip objects. -/
def ChipsBounded (s : State) : Prop :=
  (∀ x ∈ s.chips, x < 12) ∧ (∀ g ∈ s.pool.chipSet, ∀ x ∈ g, x < 12) ∧
    (∀ x : Nat, s.selected = some x → x < 12)

/-- The invariant carried through the reachability induction. -/
def GameInv (s : State) : Prop :=
  ChipsBounded s ∧ Mutual s ∧ Ranked s ∧ EdgesBelow s

/-! ## Concrete command traces

The traces below are concrete runs of the engine from the initial state;
every `clickCell` places the currently held chip at a materialized
coordinate and pops the pool, every `addChip` draws the pool head into the
hand.  `applyTrace` succeeding certifies that each listed command fires. -/

/-- Scenario of C5, first half: place the initially held chip at `(0,0)`. -/
def traceC5a : List Cmd := [Cmd.clickCell (0, 0)]

def stateC5a : State := (applyTrace traceC5a initState).getD initState

/-- Scenario of C5, second half: additionally draw a chip and place it at
`(1,0)`. -/
def traceC5b : List Cmd := [Cmd.clickCell (0, 0), Cmd.addChip, Cmd.clickCell (1, 0)]

def stateC5b : State := (applyTrace traceC5b initState).getD initState

/-- Whether the hexagon object `i` has any adjoins entry pointing at the
hexagon object `j`. -/
def linkedTo (s : State) (i j : Nat) : Bool :=
  adjoinDirections.any (fun k => hexAdj s i k == some j)

/-- Ten commands materializing cells around (0,0), (1,0), (2,0), (2,1) and
(1,2) and leaving a freshly drawn chip in hand. -/
def traceC9pre : List Cmd :=
  [Cmd.clickCell (0, 0), Cmd.addChip, Cmd.clickCell (1, 0), Cmd.addChip,
   Cmd.clickCell (2, 0), Cmd.addChip, Cmd.clickCell (2, 1), Cmd.addChip,
   Cmd.clickCell (1, 2), Cmd.addChip]

def stateC9pre : State := (applyTrace traceC9pre initState).getD initState

def stateC9 : State := (applyCmd (Cmd.clickCell (0, 1)) stateC9pre).getD stateC9pre

/-- The full trace exhibiting the reciprocity violation: after the
re-creation of the cell at (0,2), place one more chip at (1,2). -/
def traceC2 : List Cmd := traceC9pre ++ [Cmd.clickCell (0, 1), Cmd.addChip, Cmd.clickCell (1, 2)]

def stateC2 : State := (applyTrace traceC2 initState).getD initState

/-- The state after clicking the add-chip affordance in the initial state
(the held chip 1 is the most recently drawn pool piece there). -/
def stateC4 : State := (applyCmd Cmd.addChip initState).getD initState

/-! ## A reachable state with a stacked pair

Clicking the held chip 1 stacks it on itself (a no-op) and releases it;
drawing chip 2 and clicking chip 1 stacks chip 2 on chip 1.  In the
resulting reachable state `stateW`, chip 2 covers chip 1. -/

def stateW1 : State := (applyCmd (Cmd.clickChip 1) initState).getD initState

def stateW2 : State := (applyCmd Cmd.addChip stateW1).getD stateW1

def stateW : State := (applyCmd (Cmd.clickChip 1) stateW2).getD stateW2

/-! ## Basic lemmas about the stores -/

theorem aget_aset {K V : Type} [DecidableEq K] (l : List (K × V)) (k : K) (v : V) (k' : K) :
    aget (aset l k v) k' = if k' = k then some v else aget l k' := by
  induction l with
  | nil => simp [aset, aget]
  | cons hd tl ih =>
    obtain ⟨k0, v0⟩ := hd
    by_cases h1 : k = k0
    · subst h1
      by_cases h2 : k' = k <;> simp [aset, aget, h2]
    · by_cases h2 : k' = k0
      · subst h2
        simp [aset, aget, h1, Ne.symm h1, ih]
      · simp [aset, aget, h1, h2, ih]


theorem getChip_setChip (s : State) (c : Nat) (f : Chip → Chip) (x : Nat) :
    getChip (setChip s c f) x = if x = c then f (getChip s c) else getChip s x := by
  unfold setChip getChip
  simp only [aget_aset]
  split <;> rfl

theorem getChip_congr {s1 s2 : State} (h : s1.chipStore = s2.chipStore) (x : Nat) :
    getChip s1 x = getChip s2 x := by
  unfold getChip; rw [h]

theorem chips_setChip (s : State) (c : Nat) (f : Chip → Chip) :
    (setChip s c f).chips = s.chips := rfl

theorem pool_setChip (s : State) (c : Nat) (f : Chip → Chip) :
    (setChip s c f).pool = s.pool := rfl

theorem selected_setChip (s : State) (c : Nat) (f : Chip → Chip) :
    (setChip s c f).selected = s.selected := rfl

theorem modifyHex_proj (s : State) (i : Nat) (f : Hexagon → Hexagon) :
    (modifyHex s i f).chipStore = s.chipStore ∧ (modifyHex s i f).chips = s.chips ∧
      (modifyHex s i f).pool = s.pool ∧ (modifyHex s i f).selected = s.selected := by
  unfold modifyHex; split <;> exact ⟨rfl, rfl, rfl, rfl⟩

/-- A state projection preserved by every step of a fold is preserved by the
fold. -/
theorem foldl_proj {α γ : Type} (proj : State → γ) (g : State → α → State)
    (h : ∀ s a, proj (g s a) = proj s) :
    ∀ (l : List α) (s : State), proj (l.foldl g s) = proj s := by
  intro l
  induction l with
  | nil => intro s; rfl
  | cons a t ih => intro s; rw [List.foldl_cons, ih, h]

theorem expandStep1_proj (hid : Nat) (s : State) (k : Int × Int) :
    (expandStep1 hid s k).chipStore = s.chipStore ∧ (expandStep1 hid s k).chips = s.chips ∧
      (expandStep1 hid s k).pool = s.pool ∧ (expandStep1 hid s k).selected = s.selected := by
  unfold expandStep1
  split
  · exact ⟨rfl, rfl, rfl, rfl⟩
  · split
    · split
      · refine ⟨?_, ?_, ?_, ?_⟩ <;>
          simp [allocHex, (modifyHex_proj _ _ _).1, (modifyHex_proj _ _ _).2.1,
            (modifyHex_proj _ _ _).2.2.1, (modifyHex_proj _ _ _).2.2.2]
      · exact ⟨rfl, rfl, rfl, rfl⟩
    · exact ⟨rfl, rfl, rfl, rfl⟩

theorem expandStep2_proj (hid : Nat) (s : State) (i : Nat) :
    (expandStep2 hid s i).chipStore = s.chipStore ∧ (expandStep2 hid s i).chips = s.chips ∧
      (expandStep2 hid s i).pool = s.pool ∧ (expandStep2 hid s i).selected = s.selected := by
  unfold expandStep2
  split
  · exact ⟨rfl, rfl, rfl, rfl⟩
  · dsimp only
    split
    · refine ⟨?_, ?_, ?_, ?_⟩ <;>
        simp [(modifyHex_proj _ _ _).1, (modifyHex_proj _ _ _).2.1,
          (modifyHex_proj _ _ _).2.2.1, (modifyHex_proj _ _ _).2.2.2]
    · exact ⟨rfl, rfl, rfl, rfl⟩

theorem expandGrid_proj (s : State) (hid : Nat) :
    (expandGrid s hid).chipStore = s.chipStore ∧ (expandGrid s hid).chips = s.chips ∧
      (expandGrid s hid).pool = s.pool ∧ (expandGrid s hid).selected = s.selected := by
  unfold expandGrid
  refine ⟨?_, ?_, ?_, ?_⟩
  · rw [foldl_proj State.chipStore _ (fun s a => (expandStep2_proj hid s a).1),
      foldl_proj State.chipStore _ (fun s a => (expandStep1_proj hid s a).1)]
  · rw [foldl_proj State.chips _ (fun s a => (expandStep2_proj hid s a).2.1),
      foldl_proj State.chips _ (fun s a => (expandStep1_proj hid s a).2.1)]
  · rw [foldl_proj State.pool _ (fun s a => (expandStep2_proj hid s a).2.2.1),
      foldl_proj State.pool _ (fun s a => (expandStep1_proj hid s a).2.2.1)]
  · rw [foldl_proj State.selected _ (fun s a => (expandStep2_proj hid s a).2.2.2),
      foldl_proj State.selected _ (fun s a => (expandStep1_proj hid s a).2.2.2)]

/-! ## Characterization of `unstack_chip` and `set_grid_pos` on the chip
links -/

/-- When `unstack_chip` succeeds, the target chip had nothing on top, and on
the link fields the state changes exactly by: the partner (if any) loses its
`stacked_chip`, the chip loses its `covered_chip` (its `stacked_chip` stays
`None`); nothing else changes apart from the `selection_hexagon` field. -/
theorem unstackChipR_ok {s : State} {c : Nat} {s1 : State}
    (h : unstackChipR s c = (s1, false)) :
    (getChip s c).stacked = none ∧
    (∀ x, (getChip s1 x).stacked =
      if some x = (getChip s c).covered then none else (getChip s x).stacked) ∧
    (∀ x, (getChip s1 x).covered =
      if x = c then none else (getChip s x).covered) ∧
    (∀ x, x ≠ c → (getChip s1 x).hexagon = (getChip s x).hexagon) ∧
    (getChip s1 c).hexagon = (getChip s c).hexagon ∧
    s1.chips = s.chips ∧ s1.pool = s.pool ∧ s1.selected = s.selected ∧
    s1.hexes = s.hexes ∧ s1.nextHex = s.nextHex ∧ s1.hexDict = s.hexDict := by
  unfold unstackChipR at h
  rcases hst : (getChip s c).stacked with - | z
  case some => rw [hst] at h; simp at h
  rw [hst] at h
  simp only [Option.isSome_none, Bool.false_eq_true, if_false, Prod.mk.injEq, and_true] at h
  rcases hcov : (getChip s c).covered with - | d <;> rw [hcov] at h <;> subst h
  · refine ⟨rfl, ?_, ?_, ?_, ?_, rfl, rfl, rfl, rfl, rfl, rfl⟩
    · intro x
      simp only [getChip_setChip]
      rcases eq_or_ne x c with rfl | hxc
      · simp [hst]
      · simp [hxc]
    · intro x
      simp only [getChip_setChip]
      rcases eq_or_ne x c with rfl | hxc
      · simp [hcov]
      · simp [hxc]
    · intro x hxc
      simp only [getChip_setChip]
      simp [hxc]
    · simp only [getChip_setChip]
      simp
  · refine ⟨rfl, ?_, ?_, ?_, ?_, rfl, rfl, rfl, rfl, rfl, rfl⟩
    · intro x
      simp only [getChip_setChip, hcov]
      by_cases hxc : x = c
      · by_cases hxd : x = d <;> simp [hxc, hxd, hst]
      · by_cases hxd : x = d
        · have hdc : ¬d = c := hxd ▸ hxc
          simp [hxc, hxd, hdc]
        · simp [hxc, hxd]
    · intro x
      simp only [getChip_setChip]
      by_cases hxc : x = c
      · simp [hxc]
      · by_cases hxd : x = d
        · have hdc : ¬d = c := hxd ▸ hxc
          simp [hxc, hxd, hdc]
        · simp [hxc, hxd]
    · intro x hxc
      simp only [getChip_setChip]
      by_cases hxd : x = d
      · have hdc : ¬d = c := hxd ▸ hxc
        simp [hxc, hxd, hdc]
      · simp [hxc, hxd]
    · simp only [getChip_setChip]
      by_cases hcd : c = d <;> simp [hcd]


/-- `placeChip` only touches the `hexagon` and `selection_hexagon` of the
placed chip (plus the hexagon store). -/
theorem placeChip_ok (s : State) (c : Nat) (hid : Nat) :
    (∀ x, (getChip (placeChip s c hid) x).stacked = (getChip s x).stacked) ∧
    (∀ x, (getChip (placeChip s c hid) x).covered = (getChip s x).covered) ∧
    (getChip (placeChip s c hid) c).hexagon = some hid ∧
    (∀ x, x ≠ c → (getChip (placeChip s c hid) x).hexagon = (getChip s x).hexagon) ∧
    (placeChip s c hid).chips = s.chips ∧ (placeChip s c hid).pool = s.pool ∧
    (placeChip s c hid).selected = s.selected := by
  unfold placeChip allocHex
  dsimp only
  have hmid : ∀ (t : State) (hs : List (Nat × Hexagon)) (n : Nat) (y : Nat),
      getChip { t with hexes := hs, nextHex := n } y = getChip t y := fun _ _ _ _ => rfl
  refine ⟨?_, ?_, ?_, ?_, rfl, rfl, rfl⟩
  · intro x
    simp only [getChip_setChip, hmid]
    by_cases hxc : x = c <;> simp [hxc]
  · intro x
    simp only [getChip_setChip, hmid]
    by_cases hxc : x = c <;> simp [hxc]
  · simp [getChip_setChip, hmid]
  · intro x hxc
    simp [getChip_setChip, hmid, hxc]

set_option maxHeartbeats 1000000 in
/-- When `set_grid_pos` succeeds: the chip had nothing on top; the cover
links change exactly as `unstack_chip` dictates; the chip now occupies the
target hexagon; the occupancy of other chips, the chip list, the pool and
the selection are untouched. -/
theorem setGridPos_ok {s : State} {c : Nat} {oh : Option Nat} {s2 : State}
    (h : setGridPos s c oh = some s2) :
    (getChip s c).stacked = none ∧
    (∀ x, (getChip s2 x).stacked =
      if some x = (getChip s c).covered then none else (getChip s x).stacked) ∧
    (∀ x, (getChip s2 x).covered =
      if x = c then none else (getChip s x).covered) ∧
    (getChip s2 c).hexagon = oh ∧
    (∀ x, x ≠ c → (getChip s2 x).hexagon = (getChip s x).hexagon) ∧
    s2.chips = s.chips ∧ s2.pool = s.pool ∧ s2.selected = s.selected := by
  rcases hu : unstackChipR s c with ⟨s1, b⟩
  unfold setGridPos at h
  rw [hu] at h
  dsimp only at h
  cases b
  case true => simp at h
  obtain ⟨hst, hsta, hcov, hhex, hhexc, hchips, hpool, hsel, -, -, -⟩ := unstackChipR_ok hu
  rcases oh with - | hid
  · simp at h
  simp only [Bool.false_eq_true, if_false] at h
  obtain ⟨psta, pcov, phexc, phex, pchips, ppool, psel⟩ := placeChip_ok s1 c hid
  have key : ∀ t : State, t.chipStore = (placeChip s1 c hid).chipStore →
      t.chips = (placeChip s1 c hid).chips → t.pool = (placeChip s1 c hid).pool →
      t.selected = (placeChip s1 c hid).selected →
      (getChip s c).stacked = none ∧
      (∀ x, (getChip t x).stacked =
        if some x = (getChip s c).covered then none else (getChip s x).stacked) ∧
      (∀ x, (getChip t x).covered =
        if x = c then none else (getChip s x).covered) ∧
      (getChip t c).hexagon = some hid ∧
      (∀ x, x ≠ c → (getChip t x).hexagon = (getChip s x).hexagon) ∧
      t.chips = s.chips ∧ t.pool = s.pool ∧ t.selected = s.selected := by
    intro t hcs hc hp hs'
    refine ⟨hst, ?_, ?_, ?_, ?_, ?_, ?_, ?_⟩
    · intro x
      rw [getChip_congr hcs, psta, ← hsta]
    · intro x
      rw [getChip_congr hcs, pcov, ← hcov]
    · rw [getChip_congr hcs, phexc]
    · intro x hxc
      rw [getChip_congr hcs, phex x hxc, hhex x hxc]
    · rw [hc, pchips, hchips]
    · rw [hp, ppool, hpool]
    · rw [hs', psel, hsel]
  rcases hg : hexGet (placeChip s1 c hid) hid with - | hh <;> rw [hg] at h <;> dsimp only at h
  · cases h
    exact key _ rfl rfl rfl rfl
  · rcases hcond : hh.col.isSome && hh.row.isSome with - | -
    · rw [hcond] at h
      simp only [Bool.false_eq_true, if_false] at h
      cases h
      exact key _ rfl rfl rfl rfl
    · rw [hcond] at h
      simp only [if_true] at h
      injection h with h2
      subst h2
      exact key _ (expandGrid_proj _ _).1 (expandGrid_proj _ _).2.1
        (expandGrid_proj _ _).2.2.1 (expandGrid_proj _ _).2.2.2

/-- `stack_on_chip` with the same chip twice changes nothing at all
(run.py 313: the whole body is guarded by `stacked_chip != covered_chip`). -/
theorem stackOnChip_self (s : State) (c : Nat) : stackOnChip s c c = some s := by
  simp [stackOnChip]

/-- When `stack_on_chip` succeeds on two distinct chips: the stacked chip had
nothing on top; afterwards the covered chip carries the stacked chip in its
`stacked_chip`, the stacked chip covers the covered chip, and the stacked
chip occupies the `selection_hexagon` of the covered chip; the chip list,
pool and selection are untouched. -/
theorem stackOnChip_ok {s : State} {c d : Nat} {s2 : State} (hne : c ≠ d)
    (h : stackOnChip s c d = some s2) :
    (getChip s c).stacked = none ∧
    (∀ x, (getChip s2 x).stacked =
      if x = d then some c
      else if some x = (getChip s c).covered then none else (getChip s x).stacked) ∧
    (∀ x, (getChip s2 x).covered =
      if x = c then some d else (getChip s x).covered) ∧
    (getChip s2 c).hexagon = (getChip s d).selHex ∧
    s2.chips = s.chips ∧ s2.pool = s.pool ∧ s2.selected = s.selected := by
  unfold stackOnChip at h
  rw [if_pos hne] at h
  rcases hsg : setGridPos s c (getChip s d).selHex with - | s1 <;> rw [hsg] at h <;>
    dsimp only at h
  · exact absurd h (by simp)
  injection h with h2
  subst h2
  obtain ⟨hst, hsta, hcov, hhexc, hhex, hchips, hpool, hsel⟩ := setGridPos_ok hsg
  have hdc : ¬d = c := fun hh => hne hh.symm
  refine ⟨hst, ?_, ?_, ?_, hchips, hpool, hsel⟩
  · intro x
    simp only [getChip_setChip]
    by_cases hxc : x = c
    · subst hxc
      simp only [if_pos rfl, if_neg hne]
      exact hsta _
    · simp only [if_neg hxc]
      by_cases hxd : x = d
      · simp only [if_pos hxd]
      · simp only [if_neg hxd]
        exact hsta x
  · intro x
    simp only [getChip_setChip]
    by_cases hxc : x = c
    · subst hxc
      simp only [if_pos rfl]
      rfl
    · simp only [if_neg hxc]
      by_cases hxd : x = d
      · subst hxd
        simp only [if_pos rfl]
        have := hcov x
        rw [if_neg hxc] at this
        exact this
      · simp only [if_neg hxd]
        have := hcov x
        rw [if_neg hxc] at this
        exact this
  · simp only [getChip_setChip, if_pos rfl, if_neg hne]
    exact hhexc

/-! ## Termination of `top_of_stack`

The cover relation of reachable states admits a rank function that strictly
decreases along `stacked_chip`; with all links among the twelve chips this
bounds every chain, so `top_of_stack` terminates within fuel 12. -/

theorem topChain_none_path (s : State) :
    ∀ (n c : Nat), topChain s n c = none →
      ∃ f : Nat → Nat, f 0 = c ∧ ∀ i, i ≤ n → (getChip s (f i)).stacked = some (f (i + 1)) := by
  intro n
  induction n with
  | zero =>
    intro c h
    unfold topChain at h
    rcases hs : (getChip s c).stacked with - | d <;> rw [hs] at h
    · simp at h
    · refine ⟨fun i => if i = 0 then c else d, by simp, ?_⟩
      intro i hi
      have hi0 : i = 0 := Nat.le_zero.mp hi
      subst hi0
      simpa using hs
  | succ n ih =>
    intro c h
    unfold topChain at h
    rcases hs : (getChip s c).stacked with - | d <;> rw [hs] at h
    · simp at h
    · obtain ⟨g, hg0, hge⟩ := ih d h
      refine ⟨fun i => match i with | 0 => c | j + 1 => g j, rfl, ?_⟩
      intro i hi
      cases i with
      | zero => simpa [hg0] using hs
      | succ j => exact hge j (by omega)

theorem topChain_some_stacked (s : State) :
    ∀ (n c t : Nat), topChain s n c = some t → (getChip s t).stacked = none := by
  intro n
  induction n with
  | zero =>
    intro c t h
    unfold topChain at h
    rcases hs : (getChip s c).stacked with - | d <;> rw [hs] at h
    · injection h with h2; subst h2; exact hs
    · simp at h
  | succ n ih =>
    intro c t h
    unfold topChain at h
    rcases hs : (getChip s c).stacked with - | d <;> rw [hs] at h
    · injection h with h2; subst h2; exact hs
    · exact ih d t h

theorem topChain_topOfStack (s : State) :
    ∀ (n c t : Nat), topChain s n c = some t → topOfStack s n c = t := by
  intro n
  induction n with
  | zero =>
    intro c t h
    unfold topChain at h
    rcases hs : (getChip s c).stacked with - | d <;> rw [hs] at h
    · have h2 := Option.some.inj h
      subst h2
      rfl
    · simp at h
  | succ n ih =>
    intro c t h
    unfold topChain at h
    rcases hs : (getChip s c).stacked with - | d <;> rw [hs] at h
    · have h2 := Option.some.inj h
      subst h2
      unfold topOfStack
      rw [hs]
    · unfold topOfStack
      rw [hs]
      exact ih d t h

/-- With an acyclic bounded cover relation, following `stacked_chip` from any
of the twelve chips reaches the top within fuel 12. -/
theorem topChain_total {s : State} (hr : Ranked s) (he : EdgesBelow s)
    {c : Nat} (hc : c < 12) : ∃ t, topChain s 12 c = some t := by
  rcases ht : topChain s 12 c with - | t
  · exfalso
    obtain ⟨rank, hrank⟩ := hr
    obtain ⟨f, hf0, hpath⟩ := topChain_none_path s 12 c ht
    have desc : ∀ k i, i + k ≤ 12 → rank (f (i + k + 1)) < rank (f i) := by
      intro k
      induction k with
      | zero => intro i hi; exact hrank _ _ (hpath i (by omega))
      | succ k ihk =>
        intro i hi
        have h1 := hrank _ _ (hpath (i + k + 1) (by omega))
        have h2 := ihk i (by omega)
        have he2 : i + (k + 1) + 1 = i + k + 1 + 1 := by omega
        rw [he2]
        exact lt_trans h1 h2
    have inj : ∀ i j, i ≤ 13 → j ≤ 13 → f i = f j → i = j := by
      intro i j hi hj hf
      by_contra hne
      rcases Nat.lt_or_ge i j with hlt | hge
      · have hd := desc (j - i - 1) i (by omega)
        rw [show i + (j - i - 1) + 1 = j by omega, hf] at hd
        exact absurd hd (lt_irrefl _)
      · have hlt2 : j < i := by omega
        have hd := desc (i - j - 1) j (by omega)
        rw [show j + (i - j - 1) + 1 = i by omega, hf] at hd
        exact absurd hd (lt_irrefl _)
    have bound : ∀ i, i ≤ 13 → f i < 12 := by
      intro i hi
      cases i with
      | zero => rw [hf0]; exact hc
      | succ j => exact (he _ _ (hpath j (by omega))).2
    have hinj : Function.Injective
        (fun i : Fin 13 => (⟨f i.val, bound i.val (Nat.le_of_lt i.isLt)⟩ : Fin 12)) := by
      intro a b hab
      have : f a.val = f b.val := congrArg Fin.val hab
      exact Fin.ext (inj a.val b.val (Nat.le_of_lt a.isLt) (Nat.le_of_lt b.isLt) this)
    have hcard := Fintype.card_le_of_injective _ hinj
    simp [Fintype.card_fin] at hcard
  · exact ⟨t, rfl⟩

/-- `top_of_stack` returns its argument when nothing is stacked on it. -/
theorem topOfStack_of_stacked_none {s : State} {t : Nat}
    (h : (getChip s t).stacked = none) : ∀ n, topOfStack s n t = t := by
  intro n
  cases n with
  | zero => rfl
  | succ n => unfold topOfStack; rw [h]

/-- The result of `top_of_stack` stays among the twelve chips. -/
theorem topOfStack_lt {s : State} (he : EdgesBelow s) :
    ∀ (n c : Nat), c < 12 → topOfStack s n c < 12 := by
  intro n
  induction n with
  | zero => intro c hc; exact hc
  | succ n ih =>
    intro c hc
    unfold topOfStack
    rcases hs : (getChip s c).stacked with - | d
    · exact hc
    · exact ih d (he _ _ hs).2

/-- Under the reachable-state invariants, `top_of_stack` with fuel 12 lands
on a chip with nothing on top. -/
theorem topOfStack_spec {s : State} (hr : Ranked s) (he : EdgesBelow s)
    {c : Nat} (hc : c < 12) :
    topChain s 12 c = some (topOfStack s 12 c) ∧
      (getChip s (topOfStack s 12 c)).stacked = none := by
  obtain ⟨t, ht⟩ := topChain_total hr he hc
  rw [topChain_topOfStack s 12 c t ht]
  exact ⟨ht, topChain_some_stacked s 12 c t ht⟩

/-! ## The reachable-state invariant -/

theorem poolPeek_mem {p : Pool} {n : Nat} (h : poolPeek p = some n) :
    ∃ g ∈ p.chipSet, n ∈ g := by
  unfold poolPeek at h
  split at h
  · simp at h
  · split at h
    · simp at h
    · rename_i x rest hx
      injection h with h2
      subst h2
      rcases hg : p.chipSet.get? p.next with - | g
      · rw [List.getD_eq_getD_get?, hg] at hx
        simp at hx
    
      · rw [List.getD_eq_getD_get?, hg] at hx
        simp only [Option.getD_some] at hx
        subst hx
        exact ⟨x :: rest, List.get?_mem hg, List.mem_cons_self x rest⟩

theorem poolPop_bounded {p : Pool} (hb : ∀ g ∈ p.chipSet, ∀ x ∈ g, x < 12) :
    ∀ g ∈ (poolPop p).1.chipSet, ∀ x ∈ g, x < 12 := by
  unfold poolPop
  split
  · exact hb
  · split
    · exact hb
    · rename_i x rest hx
      split
      · intro g hg
        exact hb g (List.mem_of_mem_eraseIdx hg)
      · intro g hg x2 hx2
        rcases List.mem_or_eq_of_mem_set hg with hmem | rfl
        · exact hb g hmem x2 hx2
        · rcases hgd : p.chipSet.get? p.next with - | g0
          · rw [List.getD_eq_getD_get?, hgd] at hx
            simp at hx
          · rw [List.getD_eq_getD_get?, hgd] at hx
            simp only [Option.getD_some] at hx
            subst hx
            exact hb _ (List.get?_mem hgd) x2 (List.mem_cons_of_mem x hx2)

theorem poolAdvance_chipSet (p : Pool) : (poolAdvance p).1.chipSet = p.chipSet := rfl

/-- A successful `set_grid_pos` preserves the mutual-inverse invariant and
the acyclicity and bound of the cover relation (it only removes links). -/
theorem links_setGridPos {s : State} {c : Nat} {oh : Option Nat} {s2 : State}
    (h : setGridPos s c oh = some s2) (hm : Mutual s) (hr : Ranked s)
    (he : EdgesBelow s) : Mutual s2 ∧ Ranked s2 ∧ EdgesBelow s2 := by
  obtain ⟨hst, hsta, hcov, -, -, -, -, -⟩ := setGridPos_ok h
  refine ⟨?_, ?_, ?_⟩
  · intro x y
    constructor
    · intro hxy
      rw [hcov] at hxy
      by_cases hxc : x = c
      · rw [if_pos hxc] at hxy; exact absurd hxy (by simp)
      · rw [if_neg hxc] at hxy
        have hys := (hm x y).1 hxy
        rw [hsta]
        by_cases hyc : some y = (getChip s c).covered
        · exfalso
          have := (hm c y).1 hyc.symm
          rw [this] at hys
          exact hxc (Option.some.inj hys).symm
        · rw [if_neg hyc]
          exact hys
    · intro hxy
      rw [hsta] at hxy
      by_cases hxcov : some x = (getChip s c).covered
      · rw [if_pos hxcov] at hxy; exact absurd hxy (by simp)
      · rw [if_neg hxcov] at hxy
        have hyc := (hm x y).2 hxy
        rw [hcov]
        by_cases hyceq : y = c
        · exfalso
          subst hyceq
          exact hxcov ((hm x y).2 hxy).symm
        · rw [if_neg hyceq]
          exact hyc
  · obtain ⟨rank, hrank⟩ := hr
    refine ⟨rank, ?_⟩
    intro x y hxy
    rw [hsta] at hxy
    by_cases hxcov : some x = (getChip s c).covered
    · rw [if_pos hxcov] at hxy; exact absurd hxy (by simp)
    · rw [if_neg hxcov] at hxy
      exact hrank x y hxy
  · intro x y hxy
    rw [hsta] at hxy
    by_cases hxcov : some x = (getChip s c).covered
    · rw [if_pos hxcov] at hxy; exact absurd hxy (by simp)
    · rw [if_neg hxcov] at hxy
      exact he x y hxy

/-- A successful `stack_on_chip` of the held chip on an uncovered target
preserves the link invariants: the new mutual pair is installed and the
acyclicity rank is rebuilt with the held chip on top. -/
theorem links_stackOnChip {s : State} {c t : Nat} {s2 : State}
    (hm : Mutual s) (hr : Ranked s) (he : EdgesBelow s)
    (hc : c < 12) (ht : t < 12) (htop : (getChip s t).stacked = none)
    (hne : c ≠ t) (h : stackOnChip s c t = some s2) :
    Mutual s2 ∧ Ranked s2 ∧ EdgesBelow s2 := by
  obtain ⟨hst, hsta, hcov, -, -, -, -⟩ := stackOnChip_ok hne h
  refine ⟨?_, ?_, ?_⟩
  · intro x y
    constructor
    · intro hxy
      rw [hcov] at hxy
      by_cases hxc : x = c
      · rw [if_pos hxc] at hxy
        have hyt : y = t := Option.some.inj hxy.symm
        subst hyt
        rw [hsta, if_pos rfl, hxc]
      · rw [if_neg hxc] at hxy
        have hys := (hm x y).1 hxy
        rw [hsta]
        by_cases hyt : y = t
        · exfalso
          subst hyt
          rw [htop] at hys
          simp at hys
        · rw [if_neg hyt]
          by_cases hycov : some y = (getChip s c).covered
          · exfalso
            have := (hm c y).1 hycov.symm
            rw [this] at hys
            exact hxc (Option.some.inj hys).symm
          · rw [if_neg hycov]
            exact hys
    · intro hxy
      rw [hsta] at hxy
      by_cases hxt : x = t
      · rw [if_pos hxt] at hxy
        have hyc : y = c := Option.some.inj hxy.symm
        subst hyc
        rw [hcov, if_pos rfl, hxt]
      · rw [if_neg hxt] at hxy
        by_cases hxcov : some x = (getChip s c).covered
        · rw [if_pos hxcov] at hxy; exact absurd hxy (by simp)
        · rw [if_neg hxcov] at hxy
          have hyc := (hm x y).2 hxy
          rw [hcov]
          by_cases hyceq : y = c
          · exfalso
            subst hyceq
            exact hxcov ((hm x y).2 hxy).symm
          · rw [if_neg hyceq]
            exact hyc
  · obtain ⟨rank, hrank⟩ := hr
    refine ⟨fun x => if x = c then 0 else rank x + 1, ?_⟩
    intro x y hxy
    dsimp only
    rw [hsta] at hxy
    by_cases hxt : x = t
    · rw [if_pos hxt] at hxy
      have hyc : y = c := Option.some.inj hxy.symm
      have hxc : ¬x = c := by rw [hxt]; exact fun hh => hne hh.symm
      rw [if_pos hyc, if_neg hxc]
      omega
    · rw [if_neg hxt] at hxy
      by_cases hxcov : some x = (getChip s c).covered
      · rw [if_pos hxcov] at hxy; exact absurd hxy (by simp)
      · rw [if_neg hxcov] at hxy
        have hxc : ¬x = c := by
          intro hh
          rw [hh, hst] at hxy
          exact absurd hxy (by simp)
        have hyc : ¬y = c := by
          intro hh
          rw [hh] at hxy
          exact hxcov ((hm x c).2 hxy).symm
        rw [if_neg hxc, if_neg hyc]
        have := hrank x y hxy
        omega
  · intro x y hxy
    rw [hsta] at hxy
    by_cases hxt : x = t
    · rw [if_pos hxt] at hxy
      have hyc : y = c := Option.some.inj hxy.symm
      subst hyc
      exact ⟨hxt ▸ ht, hc⟩
    · rw [if_neg hxt] at hxy
      by_cases hxcov : some x = (getChip s c).covered
      · rw [if_pos hxcov] at hxy; exact absurd hxy (by simp)
      · rw [if_neg hxcov] at hxy
        exact he x y hxy

theorem mutual_congr {s1 s2 : State} (h : s2.chipStore = s1.chipStore)
    (hm : Mutual s1) : Mutual s2 := by
  intro c d
  constructor <;> intro hx
  · rw [getChip_congr h] at hx
    rw [getChip_congr h]
    exact (hm c d).1 hx
  · rw [getChip_congr h] at hx
    rw [getChip_congr h]
    exact (hm c d).2 hx

theorem ranked_congr {s1 s2 : State} (h : s2.chipStore = s1.chipStore)
    (hr : Ranked s1) : Ranked s2 := by
  obtain ⟨rank, hrank⟩ := hr
  refine ⟨rank, ?_⟩
  intro c d hx
  rw [getChip_congr h] at hx
  exact hrank c d hx

theorem edges_congr {s1 s2 : State} (h : s2.chipStore = s1.chipStore)
    (he : EdgesBelow s1) : EdgesBelow s2 := by
  intro c d hx
  rw [getChip_congr h] at hx
  exact he c d hx

/-- `release_selected_chip` keeps all invariants. -/
theorem inv_release {s : State} (hb : ∀ x ∈ s.chips, x < 12)
    (hp : ∀ g ∈ s.pool.chipSet, ∀ x ∈ g, x < 12) (hm : Mutual s) (hr : Ranked s)
    (he : EdgesBelow s) : GameInv (releaseSelectedChip s) := by
  unfold releaseSelectedChip
  split
  · exact ⟨⟨hb, fun g hg => poolPop_bounded hp g hg, fun x hx => by simp at hx⟩,
      mutual_congr rfl hm, ranked_congr rfl hr, edges_congr rfl he⟩
  · exact ⟨⟨hb, hp, fun x hx => by simp at hx⟩,
      mutual_congr rfl hm, ranked_congr rfl hr, edges_congr rfl he⟩

/-- Characterization of a successful `get_new_chip`: either nothing was
available (only the pool cursor may have moved), or some chip `n` was peeked
from the (possibly advanced) pool, placed on the add-chip hexagon, appended
and selected. -/
theorem getNewChip_ok {s s2 : State} (h : getNewChip s = some s2) :
    (s2.chipStore = s.chipStore ∧ s2.chips = s.chips ∧ s2.selected = s.selected ∧
      s2.pool.chipSet = s.pool.chipSet) ∨
    ∃ (sb : State) (n : Nat) (sg : State),
      sb.chipStore = s.chipStore ∧ sb.chips = s.chips ∧
      sb.pool.chipSet = s.pool.chipSet ∧ poolPeek sb.pool = some n ∧
      setGridPos sb n (getChip sb 0).hexagon = some sg ∧
      s2 = { sg with chips := sg.chips ++ [n], selected := some n } := by
  unfold getNewChip at h
  by_cases hsel : s.selected = poolPeek s.pool <;>
    simp only [hsel, if_pos, if_neg, if_true, if_false] at h
  · rcases hpk : (poolAdvance s.pool).2 with - | n <;> rw [hpk] at h <;> dsimp only at h
    · injection h with h2
      subst h2
      exact Or.inl ⟨rfl, rfl, hsel.symm, rfl⟩
    · split at h
      · simp at h
      · rename_i sg hsg
        injection h with h2
        subst h2
        refine Or.inr ⟨⟨s.hexes, s.nextHex, s.hexDict, s.chipStore, s.chips,
          (poolAdvance s.pool).1, poolPeek s.pool⟩, n, sg, rfl, rfl, rfl, ?_, hsg, rfl⟩
        exact hpk
  · rcases hpk : poolPeek s.pool with - | n <;> rw [hpk] at h <;> dsimp only at h
    · injection h with h2
      subst h2
      exact Or.inl ⟨rfl, rfl, rfl, rfl⟩
    · split at h
      · simp at h
      · rename_i sg hsg
        injection h with h2
        subst h2
        exact Or.inr ⟨s, n, sg, rfl, rfl, rfl, hpk, hsg, rfl⟩

/-- Every engine command preserves the reachable-state invariant. -/
theorem inv_applyCmd {cmd : Cmd} {s s2 : State} (hi : GameInv s)
    (h : applyCmd cmd s = some s2) : GameInv s2 := by
  obtain ⟨⟨hbc, hbp, hbs⟩, hm, hr, he⟩ := hi
  cases cmd with
  | addChip =>
    rcases getNewChip_ok h with ⟨hcs, hch, hse, hpo⟩ | ⟨sb, n, sg, hcs, hch, hpo, hpk, hsg, rfl⟩
    · refine ⟨⟨?_, ?_, ?_⟩, mutual_congr hcs hm, ranked_congr hcs hr, edges_congr hcs he⟩
      · rw [hch]; exact hbc
      · rw [hpo]; exact hbp
      · rw [hse]; exact hbs
    · obtain ⟨g, hg, hng⟩ := poolPeek_mem hpk
      rw [hpo] at hg
      have hn12 : n < 12 := hbp g hg n hng
      obtain ⟨hmg, hrg, heg⟩ := links_setGridPos hsg (mutual_congr hcs hm)
        (ranked_congr hcs hr) (edges_congr hcs he)
      obtain ⟨-, -, -, -, -, hgch, hgpo, -⟩ := setGridPos_ok hsg
      refine ⟨⟨?_, ?_, ?_⟩, mutual_congr rfl hmg, ranked_congr rfl hrg,
        edges_congr rfl heg⟩
      · intro x hx
        simp only [List.mem_append, List.mem_singleton] at hx
        rcases hx with hx | rfl
        · exact hbc x (by rw [← hch, ← hgch]; exact hx)
        · exact hn12
      · intro g2 hg2
        have : sg.pool.chipSet = s.pool.chipSet := by rw [hgpo, hpo]
        rw [this] at hg2
        exact hbp g2 hg2
      · intro x hx
        injection hx with h2
        subst h2
        exact hn12
  | clickChip c0 =>
    unfold applyCmd at h
    dsimp only at h
    split at h
    case isFalse => simp at h
    rename_i hguard
    obtain ⟨hc0, -⟩ := hguard
    have hc012 : c0 < 12 := hbc c0 hc0
    rcases hsel : s.selected with - | h0 <;> rw [hsel] at h <;> dsimp only at h
    · injection h with h2
      subst h2
      refine ⟨⟨hbc, hbp, ?_⟩, mutual_congr rfl hm, ranked_congr rfl hr,
        edges_congr rfl he⟩
      intro x hx
      injection hx with h2
      subst h2
      exact topOfStack_lt he 12 c0 hc012
    · split at h
      case h_1 => simp at h
      rename_i s1 hso
      injection h with h2
      subst h2
      have h012 : h0 < 12 := hbs h0 hsel
      by_cases hne : h0 = topOfStack s 12 c0
      · rw [← hne, stackOnChip_self] at hso
        injection hso with h3
        subst h3
        exact inv_release hbc hbp hm hr he
      · have htop := (topOfStack_spec hr he hc012).2
        obtain ⟨hmg, hrg, heg⟩ := links_stackOnChip hm hr he h012
          (topOfStack_lt he 12 c0 hc012) htop hne hso
        obtain ⟨-, -, -, -, hch, hpo, -⟩ := stackOnChip_ok hne hso
        refine inv_release ?_ ?_ hmg hrg heg
        · rw [hch]; exact hbc
        · rw [hpo]; exact hbp
  | clickCell co =>
    unfold applyCmd at h
    dsimp only at h
    rcases hsel : s.selected with - | h0 <;> rw [hsel] at h
    · simp at h
    · rcases hdict : aget s.hexDict co with - | hid <;> rw [hdict] at h <;> dsimp only at h
      · simp at h
      · split at h
        case h_1 => simp at h
        rename_i s1 hsg
        injection h with h2
        subst h2
        obtain ⟨hmg, hrg, heg⟩ := links_setGridPos hsg hm hr he
        obtain ⟨-, -, -, -, -, hch, hpo, -⟩ := setGridPos_ok hsg
        refine inv_release ?_ ?_ hmg hrg heg
        · rw [hch]; exact hbc
        · rw [hpo]; exact hbp

/-- The translated `__init__` sequence succeeds and produces `initState`. -/
theorem initStateOpt_eq : initStateOpt = some initState := by decide

theorem initState_chipStore :
    initState.chipStore =
      [(0, { stacked := none, covered := none, hexagon := some 1, selHex := some 2 }),
       (1, { stacked := none, covered := none, hexagon := some 1, selHex := some 3 })] := by
  decide

theorem getChip_initState_links (c : Nat) :
    (getChip initState c).stacked = none ∧ (getChip initState c).covered = none := by
  unfold getChip
  rw [initState_chipStore]
  by_cases h0 : c = 0
  · subst h0; exact ⟨rfl, rfl⟩
  · by_cases h1 : c = 1
    · subst h1; exact ⟨rfl, rfl⟩
    · simp [aget, h0, h1]

theorem inv_initState : GameInv initState := by
  refine ⟨⟨?_, ?_, ?_⟩, ?_, ⟨fun _ => 0, ?_⟩, ?_⟩
  · have hc : initState.chips = [1] := by decide
    rw [hc]
    intro x hx
    simp at hx
    omega
  · have hp : initState.pool = poolInit := by decide
    rw [hp]
    decide
  · have hs : initState.selected = some 1 := by decide
    rw [hs]
    intro x hx
    injection hx with h2
    omega
  · intro c d
    constructor <;> intro hx
    · rw [(getChip_initState_links c).2] at hx; exact absurd hx (by simp)
    · rw [(getChip_initState_links c).1] at hx; exact absurd hx (by simp)
  · intro c d hx
    rw [(getChip_initState_links c).1] at hx; exact absurd hx (by simp)
  · intro c d hx
    rw [(getChip_initState_links c).1] at hx; exact absurd hx (by simp)

/-- Every reachable state satisfies the invariant. -/
theorem reach_inv {s : State} (h : Reach s) : GameInv s := by
  induction h with
  | refl => exact inv_initState
  | tail hr hstep ih =>
    obtain ⟨cmd, hc⟩ := hstep
    exact inv_applyCmd ih hc

/-- `set_grid_pos` succeeds whenever the chip is uncovered and the target
hexagon exists. -/
theorem setGridPos_isSome {s : State} {c : Nat} {hid : Nat}
    (hst : (getChip s c).stacked = none) :
    (setGridPos s c (some hid)).isSome := by
  unfold setGridPos
  rcases hu : unstackChipR s c with ⟨s1, b⟩
  dsimp only
  have hb : b = false := by
    unfold unstackChipR at hu
    rw [hst] at hu
    simp only [Option.isSome_none, Bool.false_eq_true, if_false] at hu
    exact (congrArg Prod.snd hu).symm
  subst hb
  simp only [Bool.false_eq_true, if_false]
  split
  · split <;> simp
  · simp

/-! ## The claims -/

/-- C1: In every reachable board state, the cover links of every chip are
mutual inverses: if `P.covered_chip` is set then `P.covered_chip.stacked_chip`
is `P`, and if `P.stacked_chip` is set then `P.stacked_chip.covered_chip`
is `P`. -/
theorem C1_cover_links_mutual {s : State} (h : Reach s) (c d : Nat) :
    ((getChip s c).covered = some d → (getChip s d).stacked = some c) ∧
    ((getChip s c).stacked = some d → (getChip s d).covered = some c) :=
  (reach_inv h).2.1 c d

/-- C3: `unstack_chip` raises exactly when the chip has another chip on top
of it; a raise leaves the state untouched (the check precedes every
mutation); success clears `covered_chip` and the mutual `stacked_chip` link
of the formerly covered chip. -/
theorem C3_unstack_spec (s : State) (c : Nat) :
    ((unstackChipR s c).2 = true ↔ (getChip s c).stacked ≠ none) ∧
    ((unstackChipR s c).2 = true → (unstackChipR s c).1 = s) ∧
    ((unstackChipR s c).2 = false →
      (getChip (unstackChipR s c).1 c).covered = none ∧
      ∀ d, (getChip s c).covered = some d →
        (getChip (unstackChipR s c).1 d).stacked = none) := by
  rcases hu : unstackChipR s c with ⟨s1, b⟩
  dsimp only
  cases b
  · obtain ⟨hst, hsta, hcov, -, -, -, -, -, -, -, -⟩ := unstackChipR_ok hu
    refine ⟨⟨fun hx => absurd hx (by simp), fun hx => absurd hst hx⟩,
      fun hx => absurd hx (by simp), fun _ => ⟨?_, ?_⟩⟩
    · have h2 := hcov c
      rw [if_pos rfl] at h2
      exact h2
    · intro d hd
      have h2 := hsta d
      rw [hd, if_pos rfl] at h2
      exact h2
  · unfold unstackChipR at hu
    by_cases hst : (getChip s c).stacked.isSome
    · rw [if_pos hst] at hu
      have h1 : s = s1 := congrArg Prod.fst hu
      refine ⟨⟨fun _ => Option.isSome_iff_ne_none.mp hst, fun _ => rfl⟩,
        fun _ => h1.symm, fun hx => absurd hx (by simp)⟩
    · rw [if_neg hst] at hu
      have h2 := congrArg Prod.snd hu
      simp at h2

/-- C6: In every reachable board state, `top_of_stack` reaches the top of
the stack within fuel 12 (the chain of `stacked_chip` links is finite and
acyclic) and is idempotent. -/
theorem C6_top_of_stack {s : State} (h : Reach s) (c : Nat) (hc : c < 12) :
    topChain s 12 c = some (topOfStack s 12 c) ∧
    (getChip s (topOfStack s 12 c)).stacked = none ∧
    topOfStack s 12 (topOfStack s 12 c) = topOfStack s 12 c := by
  obtain ⟨-, -, hr, he⟩ := reach_inv h
  obtain ⟨h1, h2⟩ := topOfStack_spec hr he hc
  exact ⟨h1, h2, topOfStack_of_stacked_none h2 12⟩

/-- C7: `stack_on_chip` is a complete no-op when both arguments are the same
chip; otherwise, for an uncovered held chip and a target with a selection
hexagon, it places the held chip on the selection (badge) hexagon of the
target and installs the mutual links. -/
theorem C7_stack_on_chip (s : State) (c d : Nat) :
    stackOnChip s c c = some s ∧
    (c ≠ d → (getChip s c).stacked = none → (getChip s d).selHex.isSome →
      (stackOnChip s c d).map
          (fun s2 => ((getChip s2 c).hexagon, (getChip s2 d).stacked, (getChip s2 c).covered)) =
        some ((getChip s d).selHex, some c, some d)) := by
  refine ⟨stackOnChip_self s c, ?_⟩
  intro hne hst hsel
  obtain ⟨hid, hhid⟩ := Option.isSome_iff_exists.mp hsel
  rcases hso : stackOnChip s c d with - | s2
  · exfalso
    unfold stackOnChip at hso
    rw [if_pos hne, hhid] at hso
    have hsome := @setGridPos_isSome s c hid hst
    obtain ⟨sg, hsg⟩ := Option.isSome_iff_exists.mp hsome
    rw [hsg] at hso
    simp at hso
  · obtain ⟨-, hsta, hcov, hhex, -, -, -⟩ := stackOnChip_ok hne hso
    rw [Option.map_some', hhex, hcov, hsta, if_pos rfl, if_pos rfl]

/-- C8: From a freshly constructed pool (group counts 1, 2, 2, 3, 3) exactly
eleven consecutive `pop` calls each return a chip; afterwards the pool is
exhausted and `peek` and a further `pop` return `None`. -/
theorem C8_pool_exhaustion :
    (poolPopMany poolInit 11).2 =
      [some 1, some 2, some 3, some 4, some 5, some 6, some 7, some 8,
       some 9, some 10, some 11] ∧
    poolPeek (poolPopMany poolInit 11).1 = none ∧
    (poolPop (poolPopMany poolInit 11).1).2 = none := by
  decide

/-- C10: On an exhausted pool (empty `chip_set`, cursor 0) each of `peek`,
`pop` and `next` returns `None` without error (the cursor update of `next`
divides by 1, not 0) and leaves the pool unchanged. -/
theorem C10_exhausted_pool_safe (p : Pool) (hcs : p.chipSet = []) (hnx : p.next = 0) :
    poolPeek p = none ∧ poolPop p = (p, none) ∧ poolAdvance p = (p, none) := by
  obtain ⟨cs, nx⟩ := p
  dsimp only at hcs hnx
  subst hcs
  subst hnx
  refine ⟨rfl, rfl, ?_⟩
  unfold poolAdvance poolPeek
  simp

/-- Witness for C10 at the concrete empty pool. -/
theorem C10_exhausted_pool_safe_witness :
    poolPeek { chipSet := [], next := 0 } = none ∧
    poolPop { chipSet := [], next := 0 } = ({ chipSet := [], next := 0 }, none) ∧
    poolAdvance { chipSet := [], next := 0 } = ({ chipSet := [], next := 0 }, none) :=
  C10_exhausted_pool_safe { chipSet := [], next := 0 } rfl rfl

set_option maxRecDepth 8000 in
/-- C9 (code bug): the expansion triggered by placing a chip at (0,1), in a
reachable state where the coordinate (0,2) is already materialized as
hexagon object 30 but not yet linked from (0,1), allocates a fresh
`Hexagon` (object 33) for (0,2) and overwrites the grid dictionary entry,
orphaning the existing cell — `expand_grid` checks `hexagon.adjoins[key]`
instead of the dictionary (run.py 287), so it re-creates a cell for an
already-present coordinate. -/
theorem C9_cell_recreated :
    applyTrace traceC9pre initState = some stateC9pre ∧
    aget stateC9pre.hexDict (0, 2) = some 30 ∧
    applyCmd (Cmd.clickCell (0, 1)) stateC9pre = some stateC9 ∧
    aget stateC9.hexDict (0, 2) = some 33 ∧
    hexGet stateC9 30 ≠ none := by
  decide

set_option maxRecDepth 8000 in
/-- C2 (code bug): in the reachable state after `traceC2`, the materialized
cell at (0,2) (hexagon object 33) has its (1,-1) link pointing at the
materialized cell (1,1) (object 15), but the (-1,1) link of object 15
points at the orphaned duplicate cell 30, not back at 33: reciprocity of
neighbor links between materialized cells is violated. -/
theorem C2_reciprocity_violated :
    applyTrace traceC2 initState = some stateC2 ∧
    aget stateC2.hexDict (0, 2) = some 33 ∧
    aget stateC2.hexDict (1, 1) = some 15 ∧
    hexAdj stateC2 33 (1, -1) = some 15 ∧
    hexAdj stateC2 15 (-1, 1) = some 30 := by
  decide

set_option maxRecDepth 8000 in
/-- C5 counterexample: after expanding around (0,0) and then around (1,0),
the cells at (1,-1) (object 6) and (0,1) (object 8) are not linked to each
other in either direction (the two coordinates are not hex-adjacent). -/
theorem C5_counterexample :
    applyTrace traceC5b initState = some stateC5b ∧
    aget stateC5b.hexDict (1, -1) = some 6 ∧
    aget stateC5b.hexDict (0, 1) = some 8 ∧
    linkedTo stateC5b 6 8 = false ∧
    linkedTo stateC5b 8 6 = false := by
  decide

set_option maxRecDepth 8000 in
/-- C5 (amended): expanding around (0,0) materializes exactly the six new
coordinates (0,-1), (1,-1), (1,0), (0,1), (-1,1), (-1,0); after a
subsequent expansion around (1,0), the cells (1,-1) and (0,1) are linked
directly to the new ring cells — (1,-1) to (2,-1) and (0,1) to (1,1) — and
each to (1,0), but not to each other. -/
theorem C5_amended_ring_links :
    applyTrace traceC5a initState = some stateC5a ∧
    stateC5a.hexDict.map Prod.fst =
      [(0, 0), (0, -1), (1, -1), (1, 0), (0, 1), (-1, 1), (-1, 0)] ∧
    applyTrace traceC5b initState = some stateC5b ∧
    aget stateC5b.hexDict (2, -1) = some 13 ∧
    aget stateC5b.hexDict (1, 1) = some 15 ∧
    aget stateC5b.hexDict (1, 0) = some 7 ∧
    hexAdj stateC5b 6 (1, 0) = some 13 ∧
    hexAdj stateC5b 13 (-1, 0) = some 6 ∧
    hexAdj stateC5b 8 (1, 0) = some 15 ∧
    hexAdj stateC5b 15 (-1, 0) = some 8 ∧
    hexAdj stateC5b 6 (0, 1) = some 7 ∧
    hexAdj stateC5b 8 (1, -1) = some 7 ∧
    linkedTo stateC5b 6 8 = false ∧
    linkedTo stateC5b 8 6 = false := by
  decide

/-- C4 counterexample: in the initial state the engine is Holding chip 1,
the piece most recently drawn from the pool (`selected = peek`).  Clicking
the add-chip affordance again does not return the engine to Idle and is not
free of side effects: the pool cursor advances from 0 to 1, the next group
head (chip 2) is appended to the chip list and becomes the held chip. -/
theorem C4_counterexample :
    initState.selected = some 1 ∧
    poolPeek initState.pool = some 1 ∧
    initState.pool.next = 0 ∧
    initState.chips = [1] ∧
    applyCmd Cmd.addChip initState = some stateC4 ∧
    stateC4.selected = some 2 ∧
    stateC4.pool.next = 1 ∧
    stateC4.chips = [1, 2] := by
  decide

/-- C4 (amended): from Holding where the held piece equals the pool peek,
the add-chip command advances the pool cursor (`ChipPool.next`), draws the
new peek `n` to the staging cell (the hexagon the add-chip occupies),
appends it to the chip list and selects it — the engine remains in Holding
whenever the advanced pool still offers a chip. -/
theorem C4_amended_cycles_pool (s : State) (n : Nat)
    (hsel : s.selected = poolPeek s.pool)
    (hadv : (poolAdvance s.pool).2 = some n)
    (hst : (getChip s n).stacked = none)
    (hgui : (getChip s 0).hexagon.isSome) :
    (applyCmd Cmd.addChip s).map
        (fun s2 => (s2.selected, s2.pool.next, s2.chips, (getChip s2 n).hexagon)) =
      some (some n, (poolAdvance s.pool).1.next, s.chips ++ [n], (getChip s 0).hexagon) := by
  unfold applyCmd getNewChip
  simp only [hsel, if_pos, if_true]
  rw [hadv]
  dsimp only
  obtain ⟨gid, hgid⟩ := Option.isSome_iff_exists.mp hgui
  rw [show (getChip ⟨s.hexes, s.nextHex, s.hexDict, s.chipStore, s.chips,
    (poolAdvance s.pool).1, poolPeek s.pool⟩ 0).hexagon = some gid from hgid]
  have hsome := @setGridPos_isSome ⟨s.hexes, s.nextHex, s.hexDict, s.chipStore,
    s.chips, (poolAdvance s.pool).1, poolPeek s.pool⟩ n gid hst
  obtain ⟨sg, hsg⟩ := Option.isSome_iff_exists.mp hsome
  rw [hsg]
  obtain ⟨-, -, -, hhexn, -, hch, hpo, -⟩ := setGridPos_ok hsg
  have h4 : (getChip { sg with chips := sg.chips ++ [n], selected := some n } n).hexagon =
      some gid := hhexn
  rw [Option.map_some', h4, hgid, hch, hpo]

/-- Witness for C4 (amended) at the initial state: the cursor advances to
group 1 and its head, chip 2, is drawn to the staging cell and held. -/
theorem C4_amended_cycles_pool_witness :
    (applyCmd Cmd.addChip initState).map
        (fun s2 => (s2.selected, s2.pool.next, s2.chips, (getChip s2 2).hexagon)) =
      some (some 2, (poolAdvance initState.pool).1.next, initState.chips ++ [2],
        (getChip initState 0).hexagon) :=
  C4_amended_cycles_pool initState 2 (by decide) (by decide) (by decide) (by decide)

theorem reach_stateW : Reach stateW := by
  have h1 : applyCmd (Cmd.clickChip 1) initState = some stateW1 := by decide
  have h2 : applyCmd Cmd.addChip stateW1 = some stateW2 := by decide
  have h3 : applyCmd (Cmd.clickChip 1) stateW2 = some stateW := by decide
  exact Relation.ReflTransGen.tail (Relation.ReflTransGen.tail
    (Relation.ReflTransGen.tail Relation.ReflTransGen.refl ⟨_, h1⟩) ⟨_, h2⟩) ⟨_, h3⟩

/-- Witness for C1 in the reachable state `stateW`: chip 2 covers chip 1,
and the theorem yields the mutual link. -/
theorem C1_cover_links_mutual_witness : (getChip stateW 1).stacked = some 2 :=
  (C1_cover_links_mutual reach_stateW 2 1).1 (by decide)

/-- Witness for C6 in the reachable state `stateW` at chip 1 (whose stack
has chip 2 on top). -/
theorem C6_top_of_stack_witness :
    topChain stateW 12 1 = some (topOfStack stateW 12 1) ∧
    (getChip stateW (topOfStack stateW 12 1)).stacked = none ∧
    topOfStack stateW 12 (topOfStack stateW 12 1) = topOfStack stateW 12 1 :=
  C6_top_of_stack reach_stateW 1 (by decide)

/-- Witness for C3 in `stateW`: unstacking the covered chip 1 raises and
leaves the state untouched; unstacking chip 2 (which covers chip 1)
succeeds and clears both links. -/
theorem C3_unstack_spec_witness :
    (unstackChipR stateW 1).2 = true ∧
    (unstackChipR stateW 1).1 = stateW ∧
    (getChip (unstackChipR stateW 2).1 2).covered = none ∧
    (getChip (unstackChipR stateW 2).1 1).stacked = none := by
  have h1 := C3_unstack_spec stateW 1
  have h2 := C3_unstack_spec stateW 2
  have hr : (unstackChipR stateW 1).2 = true := h1.1.mpr (by decide)
  exact ⟨hr, h1.2.1 hr, (h2.2.2 (by decide)).1, (h2.2.2 (by decide)).2 1 (by decide)⟩

/-- Witness for C7 in the initial state: stacking chip 1 on itself is a
no-op, and stacking chip 1 on the add-chip (chip 0, whose selection hexagon
is object 2) installs the position and the mutual links. -/
theorem C7_stack_on_chip_witness :
    stackOnChip initState 1 1 = some initState ∧
    (stackOnChip initState 1 0).map
        (fun s2 => ((getChip s2 1).hexagon, (getChip s2 0).stacked, (getChip s2 1).covered)) =
      some ((getChip initState 0).selHex, some 1, some 0) :=
  ⟨(C7_stack_on_chip initState 1 1).1,
    (C7_stack_on_chip initState 1 0).2 (by decide) (by decide) (by decide)⟩
